import Mathlib

/-!
Verification of the FP32 → E9S12 decomposition (implementation.py).

The Python code works on a `float` argument and immediately converts it to
its 32-bit IEEE-754 bit pattern via `float32_to_bits`.  We therefore embed
every function as a function of the 32-bit bit pattern `bits : ℕ`
(`bits < 2^32`), which is exactly the value `float32_to_bits` returns.
Python floats are modelled as exact rationals `ℚ`; the non-rational IEEE
values (±∞, NaN) are modelled as `none` in `Option ℚ`.
-/

namespace FPA

/-- The E9S12 narrow float record of the source: 1 sign bit, 9 exponent
bits (bias 139), 12 significand bits, classification flags. -/
structure E9S12 where
  sign : Nat
  exponent : Nat
  significand : Nat
  is_zero : Bool
  is_inf : Bool
  is_nan : Bool
deriving DecidableEq, Repr

/-- `E9S12.EXPONENT_BIAS` of the source. -/
def E9S12.EXPONENT_BIAS : Nat := 139

/-- `E9S12.SIGNIFICAND_BITS` of the source. -/
def E9S12.SIGNIFICAND_BITS : Nat := 12

/-- `E9S12.to_float` of the source, embedded into `Option ℚ`: the numeric
value of an E9S12 record.  `some q` models the Python float `q` (with
`-0.0` identified with `0`); `none` models the non-rational results
`float('inf')`, `float('-inf')` and `float('nan')` of the `is_inf` and
`is_nan` branches. -/
def E9S12.to_float (u : E9S12) : Option ℚ :=
  if u.is_zero then some 0
  else if u.is_inf then none
  else if u.is_nan then none
  else
    let significand_value : ℚ := (u.significand : ℚ) / 2 ^ (E9S12.SIGNIFICAND_BITS - 1)
    let value : ℚ := significand_value * (2 : ℚ) ^ ((u.exponent : ℤ) - (E9S12.EXPONENT_BIAS : ℤ))
    some (if u.sign == 0 then value else -value)

/-- The sign field of a 32-bit pattern: `(bits >> 31) & 1`. -/
def fieldSign (bits : Nat) : Nat := (bits >>> 31) &&& 1

/-- The exponent field of a 32-bit pattern: `(bits >> 23) & 0xFF`. -/
def fieldExp (bits : Nat) : Nat := (bits >>> 23) &&& 0xFF

/-- The fraction field of a 32-bit pattern: `bits & 0x7FFFFF`. -/
def fieldFrac (bits : Nat) : Nat := bits &&& 0x7FFFFF

/-- Result record for `unpack_fp32` (the Python function returns the tuple
`(sign, exponent, significand, flags)` with a four-entry flag dict). -/
structure UnpackResult where
  sign : Nat
  exponent : Nat
  significand : Nat
  is_zero : Bool
  is_inf : Bool
  is_nan : Bool
  is_subnormal : Bool
deriving DecidableEq, Repr

/-- `FloatingPointEmulator.unpack_fp32` of the source, as a function of the
32-bit bit pattern of the argument. -/
def unpack_fp32 (bits : Nat) : UnpackResult :=
  let sign := fieldSign bits
  let exponent := fieldExp bits
  let fraction := fieldFrac bits
  let significand := if exponent == 0 then fraction <<< 1 else (1 <<< 23) ||| fraction
  ⟨sign, exponent, significand,
    exponent == 0 && fraction == 0,
    exponent == 0xFF && fraction == 0,
    exponent == 0xFF && fraction != 0,
    exponent == 0 && fraction != 0⟩

/-- `FloatingPointEmulator.fp32_to_e9s12_decomposition` of the source, as a
function of the 32-bit bit pattern of the argument. -/
def fp32_to_e9s12_decomposition (bits : Nat) : E9S12 × E9S12 :=
  let u := unpack_fp32 bits
  if u.is_zero then
    (⟨u.sign, 0, 0, true, false, false⟩, ⟨u.sign, 0, 0, true, false, false⟩)
  else if u.is_inf then
    (⟨u.sign, 511, 0, false, true, false⟩, ⟨u.sign, 0, 0, true, false, false⟩)
  else if u.is_nan then
    (⟨u.sign, 511, 1, false, false, true⟩, ⟨u.sign, 0, 0, true, false, false⟩)
  else
    let sig_h := (u.significand >>> 12) &&& 0xFFF
    let sig_l := u.significand &&& 0xFFF
    let exp_h := u.exponent + 12
    let exp_l := u.exponent
    (⟨u.sign, exp_h, sig_h, sig_h == 0, false, false⟩,
     ⟨u.sign, exp_l, sig_l, sig_l == 0, false, false⟩)

/-- The real number denoted by a finite 32-bit IEEE-754 bit pattern (the
input value that `float32_to_bits` encodes): sign bit, 8 exponent bits with
bias 127, 23 fraction bits; subnormals (exponent field 0) have scale
`2^(-126)` and no implicit bit.  Only used as the reference meaning of the
input when the pattern is finite. -/
def fp32_value (bits : Nat) : ℚ :=
  let sign := fieldSign bits
  let exponent := fieldExp bits
  let fraction := fieldFrac bits
  let mag : ℚ :=
    if exponent == 0 then
      ((fraction : ℚ) / 2 ^ 23) * (2 : ℚ) ^ (-(126 : ℤ))
    else
      (1 + (fraction : ℚ) / 2 ^ 23) * (2 : ℚ) ^ ((exponent : ℤ) - 127)
  if sign == 0 then mag else -mag

/-! ### Arithmetic characterizations of the bit-level operations -/

lemma and_fff (x : Nat) : x &&& 0xFFF = x % 2 ^ 12 := by
  have h := Nat.and_pow_two_sub_one_eq_mod x 12
  norm_num at h ⊢
  exact h

lemma fieldSign_eq (bits : Nat) : fieldSign bits = bits / 2 ^ 31 % 2 := by
  unfold fieldSign
  rw [Nat.shiftRight_eq_div_pow, Nat.and_one_is_mod]

lemma fieldExp_eq (bits : Nat) : fieldExp bits = bits / 2 ^ 23 % 2 ^ 8 := by
  unfold fieldExp
  rw [Nat.shiftRight_eq_div_pow]
  have h := Nat.and_pow_two_sub_one_eq_mod (bits / 2 ^ 23) 8
  norm_num at h ⊢
  exact h

lemma fieldFrac_eq (bits : Nat) : fieldFrac bits = bits % 2 ^ 23 := by
  unfold fieldFrac
  have h := Nat.and_pow_two_sub_one_eq_mod bits 23
  norm_num at h ⊢
  exact h

lemma fieldExp_lt (bits : Nat) : fieldExp bits < 256 := by
  rw [fieldExp_eq]
  exact Nat.mod_lt _ (by norm_num)

lemma fieldFrac_lt (bits : Nat) : fieldFrac bits < 2 ^ 23 := by
  rw [fieldFrac_eq]
  exact Nat.mod_lt _ (by norm_num)

lemma unpack_sign (bits : Nat) : (unpack_fp32 bits).sign = fieldSign bits := rfl

lemma unpack_exponent (bits : Nat) : (unpack_fp32 bits).exponent = fieldExp bits := rfl

lemma unpack_is_zero (bits : Nat) :
    (unpack_fp32 bits).is_zero = (fieldExp bits == 0 && fieldFrac bits == 0) := rfl

lemma unpack_is_inf (bits : Nat) :
    (unpack_fp32 bits).is_inf = (fieldExp bits == 0xFF && fieldFrac bits == 0) := rfl

lemma unpack_is_nan (bits : Nat) :
    (unpack_fp32 bits).is_nan = (fieldExp bits == 0xFF && fieldFrac bits != 0) := rfl

lemma unpack_is_subnormal (bits : Nat) :
    (unpack_fp32 bits).is_subnormal = (fieldExp bits == 0 && fieldFrac bits != 0) := rfl

lemma unpack_significand (bits : Nat) :
    (unpack_fp32 bits).significand =
      if fieldExp bits = 0 then 2 * fieldFrac bits else 2 ^ 23 + fieldFrac bits := by
  show (if (fieldExp bits == 0) = true then fieldFrac bits <<< 1
        else (1 <<< 23) ||| fieldFrac bits) = _
  by_cases h : fieldExp bits = 0
  · rw [if_pos (by simpa using h), if_pos h, Nat.shiftLeft_eq]
    ring
  · rw [if_neg (by simpa using h), if_neg h]
    have hf : fieldFrac bits < 2 ^ 23 := fieldFrac_lt bits
    have h1 : (1 : Nat) <<< 23 = 2 ^ 23 * 1 := by rw [Nat.shiftLeft_eq]; ring
    rw [h1, ← Nat.mul_add_lt_is_or hf 1]
    ring

lemma unpack_significand_lt (bits : Nat) : (unpack_fp32 bits).significand < 2 ^ 24 := by
  rw [unpack_significand]
  have hf : fieldFrac bits < 2 ^ 23 := fieldFrac_lt bits
  split <;> omega

/-- The finite (normal / subnormal nonzero) branch of the decomposition,
with the bit operations rewritten to division and remainder. -/
lemma decomp_finite (bits : Nat)
    (h0 : ¬(fieldExp bits = 0 ∧ fieldFrac bits = 0)) (h255 : fieldExp bits ≠ 255) :
    fp32_to_e9s12_decomposition bits =
      (⟨fieldSign bits, fieldExp bits + 12, (unpack_fp32 bits).significand / 2 ^ 12,
          (unpack_fp32 bits).significand / 2 ^ 12 == 0, false, false⟩,
       ⟨fieldSign bits, fieldExp bits, (unpack_fp32 bits).significand % 2 ^ 12,
          (unpack_fp32 bits).significand % 2 ^ 12 == 0, false, false⟩) := by
  have hz : (unpack_fp32 bits).is_zero = false := by
    rw [unpack_is_zero]
    simp only [Bool.and_eq_false_imp, beq_iff_eq, beq_eq_false_iff_ne, ne_eq]
    intro h1 h2
    exact h0 ⟨h1, h2⟩
  have hi : (unpack_fp32 bits).is_inf = false := by
    rw [unpack_is_inf]
    simp only [Bool.and_eq_false_imp, beq_iff_eq]
    intro h
    exact absurd h (by simpa using h255)
  have hn : (unpack_fp32 bits).is_nan = false := by
    rw [unpack_is_nan]
    simp only [Bool.and_eq_false_imp, beq_iff_eq]
    intro h
    exact absurd h (by simpa using h255)
  have hlt : (unpack_fp32 bits).significand < 2 ^ 24 := unpack_significand_lt bits
  have hsh : (unpack_fp32 bits).significand >>> 12 &&& 0xFFF
      = (unpack_fp32 bits).significand / 2 ^ 12 := by
    rw [and_fff, Nat.shiftRight_eq_div_pow]
    exact Nat.mod_eq_of_lt (by omega)
  have hsl : (unpack_fp32 bits).significand &&& 0xFFF
      = (unpack_fp32 bits).significand % 2 ^ 12 := and_fff _
  show (if (unpack_fp32 bits).is_zero then _ else _) = _
  rw [hz, hi, hn]
  simp only [Bool.false_eq_true, if_false, hsh, hsl]
  rfl

/-- The zero branch of the decomposition. -/
lemma decomp_zero (bits : Nat) (he : fieldExp bits = 0) (hf : fieldFrac bits = 0) :
    fp32_to_e9s12_decomposition bits =
      (⟨fieldSign bits, 0, 0, true, false, false⟩,
       ⟨fieldSign bits, 0, 0, true, false, false⟩) := by
  have hz : (unpack_fp32 bits).is_zero = true := by rw [unpack_is_zero, he, hf]; rfl
  show (if (unpack_fp32 bits).is_zero then _ else _) = _
  rw [hz]
  rfl

/-- The infinity branch of the decomposition. -/
lemma decomp_inf (bits : Nat) (he : fieldExp bits = 255) (hf : fieldFrac bits = 0) :
    fp32_to_e9s12_decomposition bits =
      (⟨fieldSign bits, 511, 0, false, true, false⟩,
       ⟨fieldSign bits, 0, 0, true, false, false⟩) := by
  have hz : (unpack_fp32 bits).is_zero = false := by rw [unpack_is_zero, he]; rfl
  have hi : (unpack_fp32 bits).is_inf = true := by rw [unpack_is_inf, he, hf]; rfl
  show (if (unpack_fp32 bits).is_zero then _ else _) = _
  rw [hz, hi]
  rfl

/-- The NaN branch of the decomposition. -/
lemma decomp_nan (bits : Nat) (he : fieldExp bits = 255) (hf : fieldFrac bits ≠ 0) :
    fp32_to_e9s12_decomposition bits =
      (⟨fieldSign bits, 511, 1, false, false, true⟩,
       ⟨fieldSign bits, 0, 0, true, false, false⟩) := by
  have hf0 : (fieldFrac bits == 0) = false := beq_eq_false_iff_ne.mpr hf
  have hf1 : (fieldFrac bits != 0) = true := by simp [bne, hf0]
  have hz : (unpack_fp32 bits).is_zero = false := by rw [unpack_is_zero, he]; rfl
  have hi : (unpack_fp32 bits).is_inf = false := by rw [unpack_is_inf, he, hf0]; rfl
  have hn : (unpack_fp32 bits).is_nan = true := by rw [unpack_is_nan, he, hf1]; rfl
  show (if (unpack_fp32 bits).is_zero then _ else _) = _
  rw [hz, hi, hn]
  rfl

/-- `to_float` on a record with all flags false. -/
lemma to_float_finite (u : E9S12) (hz : u.is_zero = false) (hi : u.is_inf = false)
    (hn : u.is_nan = false) :
    u.to_float = some ((if u.sign == 0 then (1 : ℚ) else -1) *
      ((u.significand : ℚ) / 2 ^ 11 * (2 : ℚ) ^ ((u.exponent : ℤ) - 139))) := by
  rw [E9S12.to_float, hz, hi, hn]
  simp only [Bool.false_eq_true, if_false, E9S12.SIGNIFICAND_BITS, E9S12.EXPONENT_BIAS]
  congr 1
  split <;> norm_num

/-- `to_float` on a zero-flagged record. -/
lemma to_float_zero (u : E9S12) (hz : u.is_zero = true) : u.to_float = some 0 := by
  rw [E9S12.to_float, hz]
  rfl

/-- Recombining the two 12-bit limbs at exponents `e + 12` and `e`
recovers the full significand at exponent `e`. -/
lemma limb_sum (e : ℤ) (sig : ℕ) :
    ((sig / 2 ^ 12 : ℕ) : ℚ) / 2 ^ 11 * (2 : ℚ) ^ (e + 12 - 139)
      + ((sig % 2 ^ 12 : ℕ) : ℚ) / 2 ^ 11 * (2 : ℚ) ^ (e - 139)
      = (sig : ℚ) / 2 ^ 11 * (2 : ℚ) ^ (e - 139) := by
  have hpow : (2 : ℚ) ^ (e + 12 - 139) = (2 : ℚ) ^ (e - 139) * 4096 := by
    rw [show e + 12 - 139 = (e - 139) + 12 by ring,
      zpow_add₀ (two_ne_zero : (2 : ℚ) ≠ 0)]
    norm_num
  have hdm : sig / 2 ^ 12 * 2 ^ 12 + sig % 2 ^ 12 = sig := by omega
  have hdmq : ((sig / 2 ^ 12 : ℕ) : ℚ) * 4096 + ((sig % 2 ^ 12 : ℕ) : ℚ) = (sig : ℚ) := by
    exact_mod_cast hdm
  rw [hpow]
  linear_combination ((2 : ℚ) ^ (e - 139) / 2 ^ 11) * hdmq

/-- The IEEE value of a normal pattern, rewritten with the decomposition's
24-bit significand and the bias-139 narrow exponent. -/
lemma fp32_value_normal (e : ℤ) (f : ℕ) :
    (1 + (f : ℚ) / 2 ^ 23) * (2 : ℚ) ^ (e - 127)
      = ((2 ^ 23 + f : ℕ) : ℚ) / 2 ^ 11 * (2 : ℚ) ^ (e - 139) := by
  have hpow : (2 : ℚ) ^ (e - 127) = (2 : ℚ) ^ (e - 139) * 4096 := by
    rw [show e - 127 = (e - 139) + 12 by ring,
      zpow_add₀ (two_ne_zero : (2 : ℚ) ≠ 0)]
    norm_num
  rw [hpow]
  push_cast
  ring

/-! ### Claim theorems -/

/-- C3: for every 32-bit bit pattern, `unpack_fp32` classifies it by exactly
one of the mutually exclusive rules: `is_zero` iff the exponent field is 0
and the fraction field is 0; `is_subnormal` iff the exponent field is 0 and
the fraction field is nonzero; `is_inf` iff the exponent field is 255 and
the fraction field is 0; `is_nan` iff the exponent field is 255 and the
fraction field is nonzero; and no flag is set exactly when the value is a
normal finite nonzero value (exponent field in [1, 254]). -/
theorem unpack_fp32_classification (bits : Nat) (hb : bits < 2 ^ 32) :
    ((unpack_fp32 bits).is_zero = true ↔ fieldExp bits = 0 ∧ fieldFrac bits = 0) ∧
    ((unpack_fp32 bits).is_subnormal = true ↔ fieldExp bits = 0 ∧ fieldFrac bits ≠ 0) ∧
    ((unpack_fp32 bits).is_inf = true ↔ fieldExp bits = 255 ∧ fieldFrac bits = 0) ∧
    ((unpack_fp32 bits).is_nan = true ↔ fieldExp bits = 255 ∧ fieldFrac bits ≠ 0) ∧
    (¬((unpack_fp32 bits).is_zero = true ∧ (unpack_fp32 bits).is_subnormal = true)) ∧
    (¬((unpack_fp32 bits).is_zero = true ∧ (unpack_fp32 bits).is_inf = true)) ∧
    (¬((unpack_fp32 bits).is_zero = true ∧ (unpack_fp32 bits).is_nan = true)) ∧
    (¬((unpack_fp32 bits).is_subnormal = true ∧ (unpack_fp32 bits).is_inf = true)) ∧
    (¬((unpack_fp32 bits).is_subnormal = true ∧ (unpack_fp32 bits).is_nan = true)) ∧
    (¬((unpack_fp32 bits).is_inf = true ∧ (unpack_fp32 bits).is_nan = true)) ∧
    (((unpack_fp32 bits).is_zero = false ∧ (unpack_fp32 bits).is_subnormal = false ∧
        (unpack_fp32 bits).is_inf = false ∧ (unpack_fp32 bits).is_nan = false) ↔
      (1 ≤ fieldExp bits ∧ fieldExp bits ≤ 254)) := by
  have he : fieldExp bits < 256 := fieldExp_lt bits
  have hz : ((unpack_fp32 bits).is_zero = true) ↔
      (fieldExp bits = 0 ∧ fieldFrac bits = 0) := by
    rw [unpack_is_zero]; simp
  have hsub : ((unpack_fp32 bits).is_subnormal = true) ↔
      (fieldExp bits = 0 ∧ fieldFrac bits ≠ 0) := by
    rw [unpack_is_subnormal]; simp
  have hinf : ((unpack_fp32 bits).is_inf = true) ↔
      (fieldExp bits = 255 ∧ fieldFrac bits = 0) := by
    rw [unpack_is_inf]; simp
  have hnan : ((unpack_fp32 bits).is_nan = true) ↔
      (fieldExp bits = 255 ∧ fieldFrac bits ≠ 0) := by
    rw [unpack_is_nan]; simp
  refine ⟨hz, hsub, hinf, hnan, ?_, ?_, ?_, ?_, ?_, ?_, ?_⟩
  all_goals simp only [Bool.eq_false_iff, ne_eq, hz, hsub, hinf, hnan]
  all_goals omega

/-- C3 witness at the pattern of 1.0 (0x3F800000). -/
theorem unpack_fp32_classification_witness :
    ((unpack_fp32 0x3F800000).is_zero = true ↔
      fieldExp 0x3F800000 = 0 ∧ fieldFrac 0x3F800000 = 0) ∧
    ((unpack_fp32 0x3F800000).is_subnormal = true ↔
      fieldExp 0x3F800000 = 0 ∧ fieldFrac 0x3F800000 ≠ 0) ∧
    ((unpack_fp32 0x3F800000).is_inf = true ↔
      fieldExp 0x3F800000 = 255 ∧ fieldFrac 0x3F800000 = 0) ∧
    ((unpack_fp32 0x3F800000).is_nan = true ↔
      fieldExp 0x3F800000 = 255 ∧ fieldFrac 0x3F800000 ≠ 0) ∧
    (¬((unpack_fp32 0x3F800000).is_zero = true ∧
        (unpack_fp32 0x3F800000).is_subnormal = true)) ∧
    (¬((unpack_fp32 0x3F800000).is_zero = true ∧
        (unpack_fp32 0x3F800000).is_inf = true)) ∧
    (¬((unpack_fp32 0x3F800000).is_zero = true ∧
        (unpack_fp32 0x3F800000).is_nan = true)) ∧
    (¬((unpack_fp32 0x3F800000).is_subnormal = true ∧
        (unpack_fp32 0x3F800000).is_inf = true)) ∧
    (¬((unpack_fp32 0x3F800000).is_subnormal = true ∧
        (unpack_fp32 0x3F800000).is_nan = true)) ∧
    (¬((unpack_fp32 0x3F800000).is_inf = true ∧
        (unpack_fp32 0x3F800000).is_nan = true)) ∧
    (((unpack_fp32 0x3F800000).is_zero = false ∧
        (unpack_fp32 0x3F800000).is_subnormal = false ∧
        (unpack_fp32 0x3F800000).is_inf = false ∧
        (unpack_fp32 0x3F800000).is_nan = false) ↔
      (1 ≤ fieldExp 0x3F800000 ∧ fieldExp 0x3F800000 ≤ 254)) :=
  unpack_fp32_classification 0x3F800000 (by norm_num)

/-- C4: the 24-bit significand returned by `unpack_fp32` is the fraction
field shifted left by 1 when the exponent field is 0, and the fraction
field with bit 23 set (implicit leading 1 made explicit) otherwise. -/
theorem unpack_fp32_significand_encoding (bits : Nat) (hb : bits < 2 ^ 32) :
    (fieldExp bits = 0 →
      (unpack_fp32 bits).significand = fieldFrac bits <<< 1 ∧
      (unpack_fp32 bits).significand = 2 * fieldFrac bits) ∧
    (fieldExp bits ≠ 0 →
      (unpack_fp32 bits).significand = 2 ^ 23 ||| fieldFrac bits ∧
      (unpack_fp32 bits).significand = 2 ^ 23 + fieldFrac bits) := by
  have hf : fieldFrac bits < 2 ^ 23 := fieldFrac_lt bits
  rw [unpack_significand]
  constructor
  · intro h
    rw [if_pos h, Nat.shiftLeft_eq]
    exact ⟨by ring, rfl⟩
  · intro h
    rw [if_neg h]
    have hor := Nat.mul_add_lt_is_or hf 1
    rw [Nat.mul_one] at hor
    exact ⟨hor, rfl⟩

/-- C4 witness at the pattern of 1.0 (0x3F800000, a normal value). -/
theorem unpack_fp32_significand_encoding_witness :
    (fieldExp 0x3F800000 = 0 →
      (unpack_fp32 0x3F800000).significand = fieldFrac 0x3F800000 <<< 1 ∧
      (unpack_fp32 0x3F800000).significand = 2 * fieldFrac 0x3F800000) ∧
    (fieldExp 0x3F800000 ≠ 0 →
      (unpack_fp32 0x3F800000).significand = 2 ^ 23 ||| fieldFrac 0x3F800000 ∧
      (unpack_fp32 0x3F800000).significand = 2 ^ 23 + fieldFrac 0x3F800000) :=
  unpack_fp32_significand_encoding 0x3F800000 (by norm_num)

/-- The upper 12-bit limb of the finite branch: `sig_h = (sig >> 12) & 0xFFF`. -/
def sig_h (sig : Nat) : Nat := (sig >>> 12) &&& 0xFFF

/-- The lower 12-bit limb of the finite branch: `sig_l = sig & 0xFFF`. -/
def sig_l (sig : Nat) : Nat := sig &&& 0xFFF

/-- C5: the finite-branch split of a 24-bit significand into upper and
lower 12-bit limbs is exact: `(sig_h <<< 12) ||| sig_l = sig`. -/
theorem significand_split_exact (sig : Nat) (h : sig < 2 ^ 24) :
    (sig_h sig <<< 12) ||| sig_l sig = sig := by
  unfold sig_h sig_l
  rw [and_fff, and_fff, Nat.shiftRight_eq_div_pow, Nat.shiftLeft_eq]
  have hl : sig % 2 ^ 12 < 2 ^ 12 := Nat.mod_lt _ (by norm_num)
  rw [Nat.mul_comm, ← Nat.mul_add_lt_is_or hl (sig / 2 ^ 12 % 2 ^ 12)]
  omega

/-- C5 witness at the 24-bit significand 0xABCDEF. -/
theorem significand_split_exact_witness :
    (0xABCDEF : Nat) < 2 ^ 24 ∧
      (sig_h 0xABCDEF <<< 12) ||| sig_l 0xABCDEF = 0xABCDEF :=
  ⟨by norm_num, significand_split_exact 0xABCDEF (by norm_num)⟩

/-- C6: decomposing `+0.0` (bit pattern 0x00000000) yields two zero-flagged
records with sign 0, exponent 0 and significand 0; decomposing `-0.0`
(bit pattern 0x80000000) yields the same with sign 1 on both. -/
theorem zero_decomposition :
    fp32_to_e9s12_decomposition 0x00000000 =
      (⟨0, 0, 0, true, false, false⟩, ⟨0, 0, 0, true, false, false⟩) ∧
    fp32_to_e9s12_decomposition 0x80000000 =
      (⟨1, 0, 0, true, false, false⟩, ⟨1, 0, 0, true, false, false⟩) := by
  constructor <;> rfl

/-- C7: decomposing an infinity pattern yields
`high = (sign, 511, 0, is_inf)` and `low = (sign, 0, 0, is_zero)`;
decomposing any NaN pattern yields `high = (sign, 511, 1, is_nan)` and a
zero-flagged low part. -/
theorem special_value_decomposition (bits : Nat) (hb : bits < 2 ^ 32)
    (he : fieldExp bits = 255) :
    (fieldFrac bits = 0 →
      fp32_to_e9s12_decomposition bits =
        (⟨fieldSign bits, 511, 0, false, true, false⟩,
         ⟨fieldSign bits, 0, 0, true, false, false⟩)) ∧
    (fieldFrac bits ≠ 0 →
      fp32_to_e9s12_decomposition bits =
        (⟨fieldSign bits, 511, 1, false, false, true⟩,
         ⟨fieldSign bits, 0, 0, true, false, false⟩)) :=
  ⟨fun hf => decomp_inf bits he hf, fun hf => decomp_nan bits he hf⟩

/-- C7 witness at the canonical quiet-NaN pattern 0x7FC00000. -/
theorem special_value_decomposition_witness :
    fp32_to_e9s12_decomposition 0x7FC00000 =
      (⟨0, 511, 1, false, false, true⟩, ⟨0, 0, 0, true, false, false⟩) :=
  (special_value_decomposition 0x7FC00000 (by norm_num) (by rfl)).2 (by decide)

/-- Flags are mutually exclusive; `is_inf`/`is_nan` records carry the full
canonical encoding; `is_zero` records carry the canonical significand 0
(their exponent field is not always the canonical 0: the finite branch
keeps the limb exponent on a zero-flagged limb). -/
def canonicalFlags (u : E9S12) : Prop :=
  (¬(u.is_zero = true ∧ u.is_inf = true)) ∧
  (¬(u.is_zero = true ∧ u.is_nan = true)) ∧
  (¬(u.is_inf = true ∧ u.is_nan = true)) ∧
  (u.is_zero = true → u.significand = 0) ∧
  (u.is_inf = true → u.exponent = 511 ∧ u.significand = 0) ∧
  (u.is_nan = true → u.exponent = 511 ∧ u.significand = 1)

/-- C2 counterexample: at input 1.0 (bit pattern 0x3F800000) the low part
is flagged `is_zero` but its exponent field is 127, not the canonical 0
for the zero class. -/
theorem flag_canonical_encoding_counterexample :
    (fp32_to_e9s12_decomposition 0x3F800000).2.is_zero = true ∧
    (fp32_to_e9s12_decomposition 0x3F800000).2.exponent = 127 := by
  constructor <;> rfl

/-- C2 (amended): for every 32-bit input, each of the two results has at
most one flag set; an `is_inf` or `is_nan` result carries the canonical
exponent/significand encoding of its class; an `is_zero` result carries
the canonical significand 0, but its exponent field may differ from 0
(the finite branch keeps the limb exponent on a zero-flagged limb). -/
theorem flag_invariant (bits : Nat) (hb : bits < 2 ^ 32) :
    canonicalFlags (fp32_to_e9s12_decomposition bits).1 ∧
    canonicalFlags (fp32_to_e9s12_decomposition bits).2 := by
  by_cases he0 : fieldExp bits = 0
  · by_cases hf0 : fieldFrac bits = 0
    · rw [decomp_zero bits he0 hf0]
      constructor <;> simp [canonicalFlags]
    · rw [decomp_finite bits (fun h => hf0 h.2) (by omega)]
      constructor <;> simp [canonicalFlags]
  · by_cases he255 : fieldExp bits = 255
    · by_cases hf0 : fieldFrac bits = 0
      · rw [decomp_inf bits he255 hf0]
        constructor <;> simp [canonicalFlags]
      · rw [decomp_nan bits he255 hf0]
        constructor <;> simp [canonicalFlags]
    · rw [decomp_finite bits (fun h => he0 h.1) he255]
      constructor <;> simp [canonicalFlags]

/-- C2 witness at the NaN pattern 0x7FC00000. -/
theorem flag_invariant_witness :
    canonicalFlags (fp32_to_e9s12_decomposition 0x7FC00000).1 ∧
    canonicalFlags (fp32_to_e9s12_decomposition 0x7FC00000).2 :=
  flag_invariant 0x7FC00000 (by norm_num)

/-- C8: for every 32-bit input, both results keep their fields inside the
declared widths: exponent ≤ 511 and significand ≤ 0xFFF (in particular the
unclamped `exp_h = exp + 12` of the finite branch never exceeds 511,
because the source exponent field is at most 254 there). -/
theorem field_width_invariant (bits : Nat) (hb : bits < 2 ^ 32) :
    (fp32_to_e9s12_decomposition bits).1.exponent ≤ 511 ∧
    (fp32_to_e9s12_decomposition bits).1.significand ≤ 0xFFF ∧
    (fp32_to_e9s12_decomposition bits).2.exponent ≤ 511 ∧
    (fp32_to_e9s12_decomposition bits).2.significand ≤ 0xFFF := by
  have he : fieldExp bits < 256 := fieldExp_lt bits
  have hs : (unpack_fp32 bits).significand < 2 ^ 24 := unpack_significand_lt bits
  by_cases he0 : fieldExp bits = 0
  · by_cases hf0 : fieldFrac bits = 0
    · rw [decomp_zero bits he0 hf0]
      dsimp only
      omega
    · rw [decomp_finite bits (fun h => hf0 h.2) (by omega)]
      dsimp only
      omega
  · by_cases he255 : fieldExp bits = 255
    · by_cases hf0 : fieldFrac bits = 0
      · rw [decomp_inf bits he255 hf0]
        dsimp only
        omega
      · rw [decomp_nan bits he255 hf0]
        dsimp only
        omega
    · rw [decomp_finite bits (fun h => he0 h.1) he255]
      dsimp only
      omega

/-- C8 witness at the largest-magnitude finite pattern 0x7F7FFFFF. -/
theorem field_width_invariant_witness :
    (fp32_to_e9s12_decomposition 0x7F7FFFFF).1.exponent ≤ 511 ∧
    (fp32_to_e9s12_decomposition 0x7F7FFFFF).1.significand ≤ 0xFFF ∧
    (fp32_to_e9s12_decomposition 0x7F7FFFFF).2.exponent ≤ 511 ∧
    (fp32_to_e9s12_decomposition 0x7F7FFFFF).2.significand ≤ 0xFFF :=
  field_width_invariant 0x7F7FFFFF (by norm_num)

/-- C9: for every nonzero finite input (normal or subnormal), both results
carry the sign bit of the input. -/
theorem sign_preservation (bits : Nat) (hb : bits < 2 ^ 32)
    (hnz : ¬(fieldExp bits = 0 ∧ fieldFrac bits = 0)) (hfin : fieldExp bits ≠ 255) :
    (fp32_to_e9s12_decomposition bits).1.sign = fieldSign bits ∧
    (fp32_to_e9s12_decomposition bits).2.sign = fieldSign bits := by
  rw [decomp_finite bits hnz hfin]
  exact ⟨rfl, rfl⟩

/-- C9 witness at the pattern of -2.71828182845905 (0xC02DF854, sign 1). -/
theorem sign_preservation_witness :
    (fp32_to_e9s12_decomposition 0xC02DF854).1.sign = fieldSign 0xC02DF854 ∧
    (fp32_to_e9s12_decomposition 0xC02DF854).2.sign = fieldSign 0xC02DF854 :=
  sign_preservation 0xC02DF854 (by norm_num) (by decide) (by decide)

/-- C10 counterexample: the high part of the decomposition of the zero
pattern 0x00000000 is zero-flagged, yet the input is not subnormal — so a
zero-flagged high part does not arise only from subnormal inputs. -/
theorem normal_high_part_counterexample :
    (fp32_to_e9s12_decomposition 0x00000000).1.is_zero = true ∧
    (unpack_fp32 0x00000000).is_subnormal = false := by
  constructor <;> rfl

/-- C10 (amended): for every normal input (exponent field in [1, 254]) the
high part is never zero-flagged and its significand has the top bit set
(0x800 ≤ sig_h ≤ 0xFFF); a zero-flagged high part can only arise from
subnormal or zero inputs. -/
theorem normal_high_part (bits : Nat) (hb : bits < 2 ^ 32) :
    (1 ≤ fieldExp bits → fieldExp bits ≤ 254 →
      (fp32_to_e9s12_decomposition bits).1.is_zero = false ∧
      0x800 ≤ (fp32_to_e9s12_decomposition bits).1.significand ∧
      (fp32_to_e9s12_decomposition bits).1.significand ≤ 0xFFF) ∧
    ((fp32_to_e9s12_decomposition bits).1.is_zero = true →
      (unpack_fp32 bits).is_subnormal = true ∨ (unpack_fp32 bits).is_zero = true) := by
  have hf : fieldFrac bits < 2 ^ 23 := fieldFrac_lt bits
  constructor
  · intro h1 h2
    have hsig : (unpack_fp32 bits).significand = 2 ^ 23 + fieldFrac bits := by
      rw [unpack_significand, if_neg (by omega)]
    rw [decomp_finite bits (by omega) (by omega)]
    dsimp only
    refine ⟨?_, by omega, by omega⟩
    simp only [beq_eq_false_iff_ne, ne_eq]
    omega
  · intro h
    by_cases he0 : fieldExp bits = 0
    · by_cases hf0 : fieldFrac bits = 0
      · right
        rw [unpack_is_zero, he0, hf0]
        rfl
      · left
        rw [unpack_is_subnormal, he0]
        simp [hf0]
    · by_cases he255 : fieldExp bits = 255
      · by_cases hf0 : fieldFrac bits = 0
        · rw [decomp_inf bits he255 hf0] at h
          simp at h
        · rw [decomp_nan bits he255 hf0] at h
          simp at h
      · have hsig : (unpack_fp32 bits).significand = 2 ^ 23 + fieldFrac bits := by
          rw [unpack_significand, if_neg he0]
        rw [decomp_finite bits (fun hc => he0 hc.1) he255] at h
        simp only [beq_iff_eq] at h
        omega

/-- C10 witness at the pattern of 1.0. -/
theorem normal_high_part_witness :
    (1 ≤ fieldExp 0x3F800000 → fieldExp 0x3F800000 ≤ 254 →
      (fp32_to_e9s12_decomposition 0x3F800000).1.is_zero = false ∧
      0x800 ≤ (fp32_to_e9s12_decomposition 0x3F800000).1.significand ∧
      (fp32_to_e9s12_decomposition 0x3F800000).1.significand ≤ 0xFFF) ∧
    ((fp32_to_e9s12_decomposition 0x3F800000).1.is_zero = true →
      (unpack_fp32 0x3F800000).is_subnormal = true ∨
      (unpack_fp32 0x3F800000).is_zero = true) :=
  normal_high_part 0x3F800000 (by norm_num)

/-- C1: for every 32-bit input that is a finite nonzero normal value
(exponent field in [1, 254]), both decomposition results evaluate to
rationals via `to_float` (the zero-flagged low limb contributing ±0.0),
and the relative error of the reconstructed sum against the input value is
less than 2^-23 (the reconstruction is in fact exact). -/
theorem reconstruction_accuracy (bits : Nat) (hb : bits < 2 ^ 32)
    (h1 : 1 ≤ fieldExp bits) (h2 : fieldExp bits ≤ 254) :
    ∃ vh vl : ℚ,
      (fp32_to_e9s12_decomposition bits).1.to_float = some vh ∧
      (fp32_to_e9s12_decomposition bits).2.to_float = some vl ∧
      |fp32_value bits - (vh + vl)| / |fp32_value bits| < (2 : ℚ) ^ (-(23 : ℤ)) := by
  have hf : fieldFrac bits < 2 ^ 23 := fieldFrac_lt bits
  have hsig : (unpack_fp32 bits).significand = 2 ^ 23 + fieldFrac bits := by
    rw [unpack_significand, if_neg (by omega)]
  have hd := decomp_finite bits (by omega) (by omega)
  have hhz : (((unpack_fp32 bits).significand / 2 ^ 12 == 0) : Bool) = false := by
    simp only [beq_eq_false_iff_ne, ne_eq]
    omega
  have hhigh : (fp32_to_e9s12_decomposition bits).1.to_float
      = some ((if fieldSign bits == 0 then (1 : ℚ) else -1) *
          (((unpack_fp32 bits).significand / 2 ^ 12 : ℕ) / 2 ^ 11
            * (2 : ℚ) ^ (((fieldExp bits + 12 : ℕ) : ℤ) - 139))) := by
    rw [hd, to_float_finite _ hhz rfl rfl]
  have hlow : (fp32_to_e9s12_decomposition bits).2.to_float
      = some ((if fieldSign bits == 0 then (1 : ℚ) else -1) *
          (((unpack_fp32 bits).significand % 2 ^ 12 : ℕ) / 2 ^ 11
            * (2 : ℚ) ^ ((fieldExp bits : ℤ) - 139))) := by
    rw [hd]
    by_cases hl0 : (unpack_fp32 bits).significand % 2 ^ 12 = 0
    · rw [to_float_zero _ (by simp only [beq_iff_eq]; omega), hl0]
      norm_num
    · rw [to_float_finite _ (by simp only [beq_eq_false_iff_ne, ne_eq]; omega) rfl rfl]
  refine ⟨_, _, hhigh, hlow, ?_⟩
  have hsum : (if fieldSign bits == 0 then (1 : ℚ) else -1) *
        (((unpack_fp32 bits).significand / 2 ^ 12 : ℕ) / 2 ^ 11
          * (2 : ℚ) ^ (((fieldExp bits + 12 : ℕ) : ℤ) - 139))
      + (if fieldSign bits == 0 then (1 : ℚ) else -1) *
        (((unpack_fp32 bits).significand % 2 ^ 12 : ℕ) / 2 ^ 11
          * (2 : ℚ) ^ ((fieldExp bits : ℤ) - 139))
      = fp32_value bits := by
    have hcast : (((fieldExp bits + 12 : ℕ) : ℤ) - 139)
        = ((fieldExp bits : ℤ) + 12 - 139) := by
      push_cast
      ring
    have hne : (fieldExp bits == 0) = false := by
      simp only [beq_eq_false_iff_ne, ne_eq]
      omega
    have hveq : fp32_value bits = (if fieldSign bits == 0 then (1 : ℚ) else -1) *
        ((1 + (fieldFrac bits : ℚ) / 2 ^ 23)
          * (2 : ℚ) ^ ((fieldExp bits : ℤ) - 127)) := by
      simp only [fp32_value, hne, Bool.false_eq_true, if_false]
      by_cases hsb : (fieldSign bits == 0) = true
      · rw [if_pos hsb, if_pos hsb]
        ring
      · rw [if_neg hsb, if_neg hsb]
        ring
    rw [hcast, ← mul_add, limb_sum (fieldExp bits : ℤ) (unpack_fp32 bits).significand,
      hveq, fp32_value_normal (fieldExp bits : ℤ) (fieldFrac bits), hsig]
  rw [hsum, sub_self, abs_zero, zero_div]
  positivity

/-- C1 witness at the pattern of 1.0 (0x3F800000). -/
theorem reconstruction_accuracy_witness :
    ∃ vh vl : ℚ,
      (fp32_to_e9s12_decomposition 0x3F800000).1.to_float = some vh ∧
      (fp32_to_e9s12_decomposition 0x3F800000).2.to_float = some vl ∧
      |fp32_value 0x3F800000 - (vh + vl)| / |fp32_value 0x3F800000|
        < (2 : ℚ) ^ (-(23 : ℤ)) :=
  reconstruction_accuracy 0x3F800000 (by norm_num) (by decide) (by decide)

end FPA
